import Mathlib

/-!
Shallow embedding of the data-labeling rule engine (`app.py`): the rule
condition language (parser, value coercion, evaluator), the rule store,
the classification pipeline with its bounded history, and the statistics
endpoints, together with theorems settling the specification claims.

Conventions of the embedding:
* Python values appearing in JSON payloads and parsed rule operands are a
  tagged union `PVal`; Python floats are modelled as exact rationals.
* Python exceptions (`ValueError`/`TypeError` from `float(...)`, parse
  errors) are `Except Unit`.
* Timestamps are integers (seconds); `datetime.now()` is an explicit
  `now` parameter; rolling windows use 3600 / 86400 / 604800 seconds.
* The rule dictionary is a list of `Rule` in insertion order; the history
  list is a list of `Entry` in append order.
-/

namespace ADL

instance {ε α : Type} [DecidableEq ε] [DecidableEq α] : DecidableEq (Except ε α) := fun x y =>
  match x, y with
  | Except.ok a, Except.ok b =>
      if h : a = b then isTrue (by rw [h]) else isFalse (by simp [h])
  | Except.error a, Except.error b =>
      if h : a = b then isTrue (by rw [h]) else isFalse (by simp [h])
  | Except.ok _, Except.error _ => isFalse (by simp)
  | Except.error _, Except.ok _ => isFalse (by simp)

/-- Exact rational, modelling a Python float value. The pair is kept
unnormalized (comparisons cross-multiply); every constructed value has a
positive denominator. -/
structure PRat where
  num : Int
  den : Nat
deriving DecidableEq

/-- Value equality of two rationals (Python float `==`). -/
def prEq (a b : PRat) : Bool := a.num * (b.den : Int) == b.num * (a.den : Int)

/-- Value order of two rationals (Python float `<`). -/
def prLt (a b : PRat) : Bool := decide (a.num * (b.den : Int) < b.num * (a.den : Int))

def prLe (a b : PRat) : Bool := decide (a.num * (b.den : Int) ≤ b.num * (a.den : Int))

/-- Python `float.is_integer`. -/
def PRat.isInt (a : PRat) : Bool := a.num % (a.den : Int) == 0

/-- Python `int(f)` on a float with zero fractional part. -/
def PRat.toIntVal (a : PRat) : Int := a.num / (a.den : Int)

/-- Python runtime value (as arriving from JSON or produced by coercion). -/
inductive PVal where
  | PInt : Int → PVal
  | PFloat : PRat → PVal
  | PStr : String → PVal
  | PBool : Bool → PVal
  | PNone : PVal
deriving DecidableEq

/-- The six condition operators of the rule language. -/
inductive Op where
  | eq | ne | lt | gt | le | ge
deriving DecidableEq

/-- A payload is a JSON object: field name to value (keys distinct). -/
def Payload := List (String × PVal)

instance : DecidableEq Payload := by
  unfold Payload
  infer_instance

/-- Strip characters satisfying `p` from the end of a char list. -/
def stripEnd (p : Char → Bool) (l : List Char) : List Char :=
  (l.reverse.dropWhile p).reverse

/-- Strip characters satisfying `p` from both ends (Python `str.strip`). -/
def stripBy (p : Char → Bool) (l : List Char) : List Char :=
  stripEnd p (l.dropWhile p)

/-- Python `str.strip()` (whitespace on both ends). -/
def stripSpace (l : List Char) : List Char :=
  stripBy Char.isWhitespace l

/-- Python's strip of quote characters off each end (the stripped set
holds the double quote and the single quote, code point 39). -/
def stripQuotes (l : List Char) : List Char :=
  stripBy (fun c => c == '"' || c.toNat == 39) l

/-- Numeric value of a digit list read in base 10. -/
def digitsToNat (l : List Char) : Nat :=
  l.foldl (fun a c => a * 10 + (c.toNat - 48)) 0

/-- Split a char list into its leading run of ASCII digits and the rest. -/
def takeDigits (l : List Char) : List Char × List Char :=
  (l.takeWhile Char.isDigit, l.dropWhile Char.isDigit)

/-- Optional leading sign; returns (isNegative, rest). -/
def takeSign : List Char → Bool × List Char
  | '-' :: r => (true, r)
  | '+' :: r => (false, r)
  | r => (false, r)

/-- Parse the exponent part after `e`/`E` of a float literal. -/
def parseExp (l : List Char) : Option Int :=
  let (neg, l1) := takeSign l
  let (ds, rest) := takeDigits l1
  if ds.isEmpty || !rest.isEmpty then none
  else some (if neg then -(digitsToNat ds : Int) else (digitsToNat ds : Int))

/-- Scale a rational by `10 ^ e` (the exponent of a float literal). -/
def scalePow10 (m : PRat) (e : Int) : PRat :=
  if 0 ≤ e then ⟨m.num * (10 : Int) ^ e.toNat, m.den⟩
  else ⟨m.num, m.den * 10 ^ (-e).toNat⟩

/-- Parse an unsigned decimal mantissa (`digits`, `digits.digits`,
`digits.`, `.digits`); returns its value and the unconsumed suffix. -/
def parseMantissa (l : List Char) : Option (PRat × List Char) :=
  let (ip, r1) := takeDigits l
  match r1 with
  | '.' :: r2 =>
      let (fp, r3) := takeDigits r2
      if ip.isEmpty && fp.isEmpty then none
      else some (⟨(digitsToNat (ip ++ fp) : Int), 10 ^ fp.length⟩, r3)
  | _ => if ip.isEmpty then none else some (⟨(digitsToNat ip : Int), 1⟩, r1)

/-- Python `float(s)` on a string: decimal literal with optional sign,
fractional part and exponent, surrounded by optional whitespace.
`none` models `ValueError`. -/
def pyFloatOfString (s : String) : Option PRat :=
  let l := stripSpace s.toList
  let (neg, l1) := takeSign l
  match parseMantissa l1 with
  | none => none
  | some (m, rest) =>
      let m : PRat := if neg then ⟨-m.num, m.den⟩ else m
      match rest with
      | [] => some m
      | 'e' :: r =>
          match parseExp r with
          | some e => some (scalePow10 m e)
          | none => none
      | 'E' :: r =>
          match parseExp r with
          | some e => some (scalePow10 m e)
          | none => none
      | _ => none

/-- Python `float(x)` on a runtime value: numbers and booleans convert,
strings are parsed, `None` raises `TypeError`. -/
def pyFloat : PVal → Except Unit PRat
  | PVal.PInt n => Except.ok ⟨n, 1⟩
  | PVal.PFloat q => Except.ok q
  | PVal.PBool b => Except.ok ⟨if b then 1 else 0, 1⟩
  | PVal.PStr s =>
      match pyFloatOfString s with
      | some q => Except.ok q
      | none => Except.error ()
  | PVal.PNone => Except.error ()

/-- Numeric view used by Python `==`: int, float and bool compare by
numeric value. -/
def pyNum : PVal → Option PRat
  | PVal.PInt n => some ⟨n, 1⟩
  | PVal.PFloat q => some q
  | PVal.PBool b => some ⟨if b then 1 else 0, 1⟩
  | _ => none

/-- Python `==` on runtime values: numeric kinds (int, float, bool)
compare by numeric value, strings by content, `None` only to itself,
and any other cross-kind comparison is `False`. Never raises. -/
def pyEq (x y : PVal) : Bool :=
  match pyNum x, pyNum y with
  | some a, some b => prEq a b
  | _, _ =>
      match x, y with
      | PVal.PStr s, PVal.PStr t => s == t
      | PVal.PNone, PVal.PNone => true
      | _, _ => false

/-- Python's float `repr`: minimal decimal expansion with at least one
fractional digit (`str(5.0) = "5.0"`, `str(2.5) = "2.5"`). -/
def pyStrFloat (q : PRat) : String :=
  match (List.range 40).find? (fun k => 10 ^ k % q.den == 0) with
  | some k =>
      if k = 0 then toString (q.num / (q.den : Int)) ++ ".0"
      else
        let scaled := q.num.natAbs * 10 ^ k / q.den
        let s := toString scaled
        let s := String.mk (List.replicate (k + 1 - s.length) '0') ++ s
        (if q.num < 0 then "-" else "") ++ s.dropRight k ++ "." ++ s.takeRight k
  | none => toString q.num ++ "." ++ toString q.den

/-- Python `str(x)` on a runtime value. -/
def pyStr : PVal → String
  | PVal.PInt n => toString n
  | PVal.PFloat q => pyStrFloat q
  | PVal.PStr s => s
  | PVal.PBool b => if b then "True" else "False"
  | PVal.PNone => "None"

/-- The operator table (`RuleEngine.operators`): `=`/`!=` use Python
`==`; the four order operators convert both sides with `float` (left
first) and may raise. -/
def opApply (op : Op) (x y : PVal) : Except Unit Bool :=
  match op with
  | Op.eq => Except.ok (pyEq x y)
  | Op.ne => Except.ok (!pyEq x y)
  | Op.lt => do
      let a ← pyFloat x
      let b ← pyFloat y
      pure (prLt a b)
  | Op.gt => do
      let a ← pyFloat x
      let b ← pyFloat y
      pure (prLt b a)
  | Op.le => do
      let a ← pyFloat x
      let b ← pyFloat y
      pure (prLe a b)
  | Op.ge => do
      let a ← pyFloat x
      let b ← pyFloat y
      pure (prLe b a)

/-- A parsed single condition (`parse_condition`'s result dict). -/
structure Cond where
  key : String
  op : Op
  value : PVal
deriving DecidableEq

/-- Does `tok` occur at the head of `l`? -/
def matchTok : List Char → List Char → Bool
  | [], _ => true
  | _ :: _, [] => false
  | t :: ts, c :: cs => t == c && matchTok ts cs

/-- Split `l` at the first occurrence of `tok` (Python
`l.split(tok, 1)` when `tok in l`); `none` when `tok` does not occur. -/
def splitAtTok (tok : List Char) : List Char → Option (List Char × List Char)
  | [] => none
  | c :: cs =>
      if matchTok tok (c :: cs) then some ([], List.drop tok.length (c :: cs))
      else
        match splitAtTok tok cs with
        | some (pre, post) => some (c :: pre, post)
        | none => none

/-- Operator tokens in the exact trial order of `parse_condition`. -/
def opToks : List (List Char × Op) :=
  [([ '>', '='], Op.ge), ([ '<', '='], Op.le), ([ '!', '='], Op.ne),
   ([ '='], Op.eq), ([ '>'], Op.gt), ([ '<'], Op.lt)]

/-- Try the operator tokens in order; on the first token that occurs in
`c`, split `c` at that token's first occurrence. -/
def findOpSplit : List (List Char × Op) → List Char → Option (Op × List Char × List Char)
  | [], _ => none
  | (tok, op) :: rest, c =>
      match splitAtTok tok c with
      | some (k, v) => some (op, k, v)
      | none => findOpSplit rest c

/-- Coercion of a raw operand string: numeric parse first, Integer when
the fractional part is zero, else Float, else Text. -/
def coerceValue (raw : List Char) : PVal :=
  match pyFloatOfString (String.mk raw) with
  | some q => if q.isInt then PVal.PInt q.toIntVal else PVal.PFloat q
  | none => PVal.PStr (String.mk raw)

/-- `RuleEngine.parse_condition`: strip, find the first operator token
in trial order, split there, strip key, strip+unquote+coerce operand. -/
def parse_condition (s : String) : Except Unit Cond :=
  match findOpSplit opToks (stripSpace s.toList) with
  | some (op, k, v) =>
      Except.ok ⟨String.mk (stripSpace k), op,
        coerceValue (stripQuotes (stripSpace v))⟩
  | none => Except.error ()

/-- Worker for `splitOnSep`; the fuel argument (initially the length of
the scanned list, an upper bound on the number of steps since a
non-empty separator consumes at least one character) makes the
recursion structural. -/
def splitOnSepF (sep : List Char) : Nat → List Char → List (List Char)
  | _, [] => [[]]
  | 0, l => [l]
  | fuel + 1, c :: cs =>
      if sep.isEmpty then [c :: cs]
      else if matchTok sep (c :: cs) then
        [] :: splitOnSepF sep fuel (List.drop sep.length (c :: cs))
      else
        match splitOnSepF sep fuel cs with
        | g :: gs => (c :: g) :: gs
        | [] => [[c]]

/-- Python `s.split(sep)` for a non-empty separator (used with `" OR "`
and `" AND "`): non-overlapping splits scanning left to right. -/
def splitOnSep (sep l : List Char) : List (List Char) :=
  splitOnSepF sep l.length l

/-- `RuleEngine.parse_rule`: split on `" OR "`, then each group on
`" AND "`, then parse each condition; the first parse error aborts. -/
def parse_rule (s : String) : Except Unit (List (List Cond)) :=
  (splitOnSep " OR ".toList s.toList).mapM
    (fun g => (splitOnSep " AND ".toList g).mapM
      (fun c => parse_condition (String.mk c)))

/-- `RuleEngine.evaluate_condition`: absent key is `False`; otherwise
apply the operator; on `ValueError`/`TypeError` retry once on the two
values' `str()` forms (that retry may itself raise). -/
def evaluate_condition (c : Cond) (data : Payload) : Except Unit Bool :=
  match List.lookup c.key data with
  | none => Except.ok false
  | some actual =>
      match opApply c.op actual c.value with
      | Except.ok b => Except.ok b
      | Except.error _ =>
          opApply c.op (PVal.PStr (pyStr actual)) (PVal.PStr (pyStr c.value))

/-- `all(...)` over one AND group, short-circuiting on the first `False`
and propagating the first exception. -/
def evalGroup (data : Payload) : List Cond → Except Unit Bool
  | [] => Except.ok true
  | c :: cs =>
      match evaluate_condition c data with
      | Except.ok true => evalGroup data cs
      | Except.ok false => Except.ok false
      | Except.error e => Except.error e

/-- `RuleEngine.evaluate_rule`: OR over groups, short-circuiting on the
first `True` group and propagating the first exception. -/
def evaluate_rule (data : Payload) : List (List Cond) → Except Unit Bool
  | [] => Except.ok false
  | g :: gs =>
      match evalGroup data g with
      | Except.ok true => Except.ok true
      | Except.ok false => evaluate_rule data gs
      | Except.error e => Except.error e

/-- A stored rule (`rules_storage` entry). Timestamps are integers; the
`updated_at` stamp of `update_rule`/`toggle_rule` is omitted as no claim
mentions it. -/
structure Rule where
  id : String
  condition : String
  label : String
  enabled : Bool
  priority : Int
  created_at : Int
  usage_count : Nat
  last_used : Option Int
deriving DecidableEq

/-- One history entry (`processed_data` element); the uuid and the
constant `processing_time_ms` field are omitted. -/
structure Entry where
  payload : Payload
  labels : List String
  matched_rules : List String
  timestamp : Int
deriving DecidableEq

/-- Parse a rule's condition text and evaluate it against a payload
(the body of the per-rule `try` block in `process_payload`). -/
def evalRuleText (cond : String) (p : Payload) : Except Unit Bool := do
  let parsed ← parse_rule cond
  evaluate_rule p parsed

/-- The usage-statistics update applied to a matching rule:
`usage_count += 1`, `last_used = now`. -/
def bump (now : Int) (r : Rule) : Rule :=
  { r with usage_count := r.usage_count + 1, last_used := some now }

/-- The rule-application loop of `process_payload` over the ordered
active rules: accumulates applied labels and matched rule ids, and
returns the rules with matching ones bumped; a rule whose parse or
evaluation raises is skipped. -/
def applyRules (now : Int) (p : Payload) : List Rule → List String × List String × List Rule
  | [] => ([], [], [])
  | r :: rest =>
      match evalRuleText r.condition p with
      | Except.ok true =>
          (r.label :: (applyRules now p rest).1,
           r.id :: (applyRules now p rest).2.1,
           bump now r :: (applyRules now p rest).2.2)
      | _ =>
          ((applyRules now p rest).1,
           (applyRules now p rest).2.1,
           r :: (applyRules now p rest).2.2)

/-- Per-rule effect of one classification on the stored rule objects
(the in-place mutation seen through the store). -/
def ruleStep (now : Int) (p : Payload) (r : Rule) : Rule :=
  match evalRuleText r.condition p with
  | Except.ok true => bump now r
  | _ => r

/-- Stable insertion step for priority-descending order. -/
def insertByDesc (r : Rule) : List Rule → List Rule
  | [] => [r]
  | x :: xs => if x.priority ≤ r.priority then r :: x :: xs else x :: insertByDesc r xs

/-- Python's stable `sort(key=priority, reverse=True)`. -/
def sortRules (l : List Rule) : List Rule := l.foldr insertByDesc []

/-- History append with capacity 1000: FIFO eviction of the oldest entry
on overflow (`processed_data.append` + conditional `pop(0)`). -/
def appendBounded (h : List Entry) (e : Entry) : List Entry :=
  let h2 := h ++ [e]
  if 1000 < h2.length then h2.drop 1 else h2

/-- Result of one classification call. -/
structure ProcessResult where
  store : List Rule
  history : List Entry
  labels : List String
  matched : List String
deriving DecidableEq

/-- `process_payload`: run all enabled rules in priority order against
the payload, update matching rules' usage statistics, and append one
entry to the bounded history. -/
def process_payload (now : Int) (p : Payload) (store : List Rule) (history : List Entry) :
    ProcessResult :=
  let active := sortRules (store.filter (fun r => r.enabled))
  { store := store.map (fun r => if r.enabled then ruleStep now p r else r)
    history := appendBounded history ⟨p, (applyRules now p active).1, (applyRules now p active).2.1, now⟩
    labels := (applyRules now p active).1
    matched := (applyRules now p active).2.1 }

/-- Fields supplied to a rule update (`PUT /api/rules/<id>` body),
restricted to the documented rule fields. -/
structure RuleData where
  condition : Option String
  label : Option String
  enabled : Option Bool
  priority : Option Int
deriving DecidableEq

/-- Python `rule.update(data)` for the fields of `RuleData`. -/
def applyUpdate (r : Rule) (d : RuleData) : Rule :=
  { r with
    condition := d.condition.getD r.condition
    label := d.label.getD r.label
    enabled := d.enabled.getD r.enabled
    priority := d.priority.getD r.priority }

/-- `create_rule`: validate the condition text with the parser; on
failure reject leaving the store unchanged, otherwise insert the new
rule. The returned flag is `true` on success. -/
def create_rule (store : List Rule) (rid : String) (cond lab : String)
    (enabled : Bool) (priority : Int) (now : Int) : List Rule × Bool :=
  match parse_rule cond with
  | Except.error _ => (store, false)
  | Except.ok _ =>
      (store ++ [⟨rid, cond, lab, enabled, priority, now, 0, none⟩], true)

/-- `update_rule`: 404 when the id is unknown; when a condition is
supplied it is re-parsed and a parse failure rejects the whole mutation
with the store unchanged; otherwise the rule's fields are updated. -/
def update_rule (store : List Rule) (rid : String) (d : RuleData) : List Rule × Bool :=
  if store.all (fun r => r.id != rid) then (store, false)
  else
    match d.condition with
    | some c =>
        match parse_rule c with
        | Except.error _ => (store, false)
        | Except.ok _ =>
            (store.map (fun r => if r.id = rid then applyUpdate r d else r), true)
    | none => (store.map (fun r => if r.id = rid then applyUpdate r d else r), true)

/-- The shared `[from,to]`/label filter of `get_processed_data` and
`get_statistics`: `from` keeps `ts ≥ from`, `to` keeps `ts ≤ to`, label
keeps entries whose label list contains it. -/
def filterEntries (h : List Entry) (fromD toD : Option Int) (lab : Option String) :
    List Entry :=
  let f1 := match fromD with
    | some t => h.filter (fun d => decide (t ≤ d.timestamp))
    | none => h
  let f2 := match toD with
    | some t => f1.filter (fun d => decide (d.timestamp ≤ t))
    | none => f1
  match lab with
  | some s => f2.filter (fun d => d.labels.contains s)
  | none => f2

/-- `get_processed_data`: filter, then Python's `filtered[-limit:]`
slice (for `limit = 0` that slice is the whole list). -/
def get_processed_data (h : List Entry) (limit : Nat) (fromD toD : Option Int)
    (lab : Option String) : List Entry :=
  let filtered := filterEntries h fromD toD lab
  if limit = 0 then filtered else filtered.drop (filtered.length - limit)

/-- The fields of the `/api/statistics` response involved in the claims:
total count and the three rolling processing rates. -/
structure Stats where
  total_processed : Nat
  rate_hour : Nat
  rate_24h : Nat
  rate_week : Nat
deriving DecidableEq

/-- `get_statistics` (total and processing-rate part): the rolling
windows (1 h / 24 h / 7 days back from `now`, strict `>`) are counted
over the *filtered* data. -/
def get_statistics (h : List Entry) (now : Int) (fromD toD : Option Int)
    (lab : Option String) : Stats :=
  let filtered := filterEntries h fromD toD lab
  { total_processed := filtered.length
    rate_hour := (filtered.filter (fun d => decide (now - 3600 < d.timestamp))).length
    rate_24h := (filtered.filter (fun d => decide (now - 86400 < d.timestamp))).length
    rate_week := (filtered.filter (fun d => decide (now - 604800 < d.timestamp))).length }

end ADL

namespace ADL

example : parse_condition "Price > 5" = Except.ok ⟨"Price", Op.gt, PVal.PInt 5⟩ := by decide

example : evaluate_condition ⟨"Price", Op.gt, PVal.PInt 5⟩ [("Price", PVal.PStr "free")] = Except.error () := by decide

example : evaluate_condition ⟨"Price", Op.eq, PVal.PInt 5⟩ [("Price", PVal.PStr "5")] = Except.ok false := by decide

example : parse_condition "X != 5" = Except.ok ⟨"X", Op.ne, PVal.PInt 5⟩ := by decide

example : parse_rule "Product = \"Chocolate\" AND Price < 2" =
    Except.ok [[⟨"Product", Op.eq, PVal.PStr "Chocolate"⟩, ⟨"Price", Op.lt, PVal.PInt 2⟩]] := by decide

example : evaluate_condition ⟨"Product", Op.eq, PVal.PStr "Chocolate"⟩ [("Product", PVal.PStr "Chocolate")] = Except.ok true := by decide

example : parse_condition "P = 2.5" = Except.ok ⟨"P", Op.eq, PVal.PFloat ⟨25, 10⟩⟩ := by decide

example : parse_condition "P = 1e3" = Except.ok ⟨"P", Op.eq, PVal.PInt 1000⟩ := by decide

example : evaluate_condition ⟨"Price", Op.lt, PVal.PInt 100⟩ [("Price", PVal.PInt 50)] = Except.ok true := by decide

/-! ### Helper lemmas -/

theorem filterEntries_sublist (h : List Entry) (fromD toD : Option Int) (lab : Option String) :
    List.Sublist (filterEntries h fromD toD lab) h := by
  unfold filterEntries
  cases fromD <;> cases toD <;> cases lab <;>
    simp only [] <;>
    first
      | exact List.Sublist.refl _
      | exact List.filter_sublist _
      | exact (List.filter_sublist _).trans (List.filter_sublist _)
      | exact ((List.filter_sublist _).trans (List.filter_sublist _)).trans (List.filter_sublist _)

theorem filterEntries_none (h : List Entry) : filterEntries h none none none = h := rfl

/-- C1: evaluating an order condition (`<`, `>`, `<=`, `>=`) whose
payload value is a non-numeric string does not fall back to a
lexicographic text comparison: the except-branch re-invokes the same
float-converting operator on the `str()` forms, which raises again, so
`Price > 5` against `{Price: "free"}` raises a `ValueError` out of
`evaluate_condition` instead of returning a boolean. -/
theorem c1_order_fallback_raises :
    parse_condition "Price > 5" = Except.ok ⟨"Price", Op.gt, PVal.PInt 5⟩
    ∧ evaluate_condition ⟨"Price", Op.gt, PVal.PInt 5⟩ [("Price", PVal.PStr "free")] =
        Except.error () := by
  exact ⟨by decide, by decide⟩

/-- C2 counterexample: `Price = 5` parses with the Integer operand `5`,
but against the payload `{Price: "5"}` it evaluates to `False`, not
`True` — the payload field value is not coerced before comparison. -/
theorem c2_counterexample :
    parse_condition "Price = 5" = Except.ok ⟨"Price", Op.eq, PVal.PInt 5⟩
    ∧ evaluate_condition ⟨"Price", Op.eq, PVal.PInt 5⟩ [("Price", PVal.PStr "5")] =
        Except.ok false
    ∧ evaluate_condition ⟨"Price", Op.eq, PVal.PInt 5⟩ [("Price", PVal.PStr "5")] ≠
        Except.ok true := by
  exact ⟨by decide, by decide, by decide⟩

/-- C2 (amended): payload field values are used raw, with no coercion;
for the equality operator a textual payload value never equals an
Integer operand, so a condition with Integer operand `n` evaluates to
`False` against a payload whose field holds any string (in particular
the textual representation of `n`). -/
theorem c2_no_payload_coercion (key : String) (p : Payload) (s : String) (n : Int)
    (h : List.lookup key p = some (PVal.PStr s)) :
    evaluate_condition ⟨key, Op.eq, PVal.PInt n⟩ p = Except.ok false := by
  simp [evaluate_condition, h, opApply, pyEq, pyNum]

theorem c2_no_payload_coercion_witness :
    evaluate_condition ⟨"Price", Op.eq, PVal.PInt 5⟩ [("Price", PVal.PStr "5")] =
      Except.ok false :=
  c2_no_payload_coercion "Price" [("Price", PVal.PStr "5")] "5" 5 (by decide)

/-- C3 counterexample: one entry at time 0, queried at now = 1000: with
the filter `from = 500` the last-hour processing rate is 0, without
filters it is 1 — the rates are not computed over the whole history. -/
theorem c3_counterexample :
    (get_statistics [⟨[], ["A"], [], 0⟩] 1000 (some 500) none none).rate_hour ≠
      (get_statistics [⟨[], ["A"], [], 0⟩] 1000 none none none).rate_hour := by
  decide

/-- C3 (amended): the processing rates are computed over the filtered
data, so the `[from,to]` and label filters do affect them: a filtered
call reports rates at most those of the unfiltered call at the same
"now", and only the unfiltered call counts the rolling windows over the
whole history. -/
theorem c3_rates_follow_filters (h : List Entry) (now : Int) (fromD toD : Option Int)
    (lab : Option String) :
    (get_statistics h now fromD toD lab).rate_hour ≤ (get_statistics h now none none none).rate_hour
    ∧ (get_statistics h now fromD toD lab).rate_24h ≤ (get_statistics h now none none none).rate_24h
    ∧ (get_statistics h now fromD toD lab).rate_week ≤ (get_statistics h now none none none).rate_week
    ∧ (get_statistics h now none none none).rate_hour =
        (h.filter (fun d => decide (now - 3600 < d.timestamp))).length
    ∧ (get_statistics h now none none none).rate_24h =
        (h.filter (fun d => decide (now - 86400 < d.timestamp))).length
    ∧ (get_statistics h now none none none).rate_week =
        (h.filter (fun d => decide (now - 604800 < d.timestamp))).length := by
  have hs := filterEntries_sublist h fromD toD lab
  refine ⟨?_, ?_, ?_, rfl, rfl, rfl⟩ <;>
    exact List.Sublist.length_le (List.Sublist.filter _ hs)

/-- C4 counterexample, failing the claim at two explicit inputs: with
two entries at times 1 and 2 and limit 2, the query returns them in
stored (chronological) order, not most-recent-first; and with one entry
and limit 0, the query returns 1 entry, violating "at most `limit`
entries" (Python's `[-0:]` slice is the whole list). -/
theorem c4_counterexample :
    get_processed_data [⟨[], [], [], 1⟩, ⟨[], [], [], 2⟩] 2 none none none ≠
      [⟨[], [], [], 2⟩, ⟨[], [], [], 1⟩]
    ∧ ¬ (get_processed_data [⟨[], [], [], 1⟩] 0 none none none).length ≤ 0 := by
  exact ⟨by decide, by decide⟩

/-- C4 (amended): for every positive limit the history query returns at
most `limit` entries, namely the most recent matching entries (a suffix
of the filtered history), but ordered chronologically (oldest of the
slice first), not most-recent-first; `limit = 0` returns all matching
entries. -/
theorem c4_limit_suffix (h : List Entry) (limit : Nat) (fromD toD : Option Int)
    (lab : Option String) :
    (1 ≤ limit →
      (get_processed_data h limit fromD toD lab).length ≤ limit
      ∧ List.IsSuffix (get_processed_data h limit fromD toD lab) (filterEntries h fromD toD lab)
      ∧ (get_processed_data h limit fromD toD lab).length =
          min limit (filterEntries h fromD toD lab).length)
    ∧ get_processed_data h 0 fromD toD lab = filterEntries h fromD toD lab := by
  constructor
  · intro hl
    unfold get_processed_data
    rw [if_neg (by omega)]
    refine ⟨?_, List.drop_suffix _ _, ?_⟩ <;>
      · simp only [List.length_drop]
        omega
  · rfl

theorem c4_limit_suffix_witness :
    ((get_processed_data [⟨[], [], [], 1⟩, ⟨[], [], [], 2⟩] 1 none none none).length ≤ 1
     ∧ List.IsSuffix (get_processed_data [⟨[], [], [], 1⟩, ⟨[], [], [], 2⟩] 1 none none none)
         (filterEntries [⟨[], [], [], 1⟩, ⟨[], [], [], 2⟩] none none none)
     ∧ (get_processed_data [⟨[], [], [], 1⟩, ⟨[], [], [], 2⟩] 1 none none none).length =
         min 1 (filterEntries [⟨[], [], [], 1⟩, ⟨[], [], [], 2⟩] none none none).length)
    ∧ get_processed_data [⟨[], [], [], 1⟩, ⟨[], [], [], 2⟩] 0 none none none =
        filterEntries [⟨[], [], [], 1⟩, ⟨[], [], [], 2⟩] none none none :=
  ⟨(c4_limit_suffix [⟨[], [], [], 1⟩, ⟨[], [], [], 2⟩] 1 none none none).1 (by decide),
   (c4_limit_suffix [⟨[], [], [], 1⟩, ⟨[], [], [], 2⟩] 0 none none none).2⟩

/-- C6: the condition parser tries the operator tokens in the exact
order `>=`, `<=`, `!=`, `=`, `>`, `<` and splits at the first occurrence
of the first token found: `X != 5` parses as `!=` with operand 5,
`X >= 5` as `>=` with operand 5, `a=b>=c` as `>=` with key `a=b` (order
of trial beats position in the string), and a condition containing none
of the six tokens is a parse error. -/
theorem c6_operator_token_order :
    parse_condition "X != 5" = Except.ok ⟨"X", Op.ne, PVal.PInt 5⟩
    ∧ parse_condition "X >= 5" = Except.ok ⟨"X", Op.ge, PVal.PInt 5⟩
    ∧ parse_condition "a=b>=c" = Except.ok ⟨"a=b", Op.ge, PVal.PStr "c"⟩
    ∧ (∀ s : String, (∀ t ∈ opToks, splitAtTok t.1 (stripSpace s.toList) = none) →
        parse_condition s = Except.error ()) := by
  refine ⟨by decide, by decide, by decide, ?_⟩
  intro s h
  have h1 : splitAtTok [ '>', '='] (stripSpace s.toList) = none :=
    h ([ '>', '='], Op.ge) (by simp [opToks])
  have h2 : splitAtTok [ '<', '='] (stripSpace s.toList) = none :=
    h ([ '<', '='], Op.le) (by simp [opToks])
  have h3 : splitAtTok [ '!', '='] (stripSpace s.toList) = none :=
    h ([ '!', '='], Op.ne) (by simp [opToks])
  have h4 : splitAtTok [ '='] (stripSpace s.toList) = none :=
    h ([ '='], Op.eq) (by simp [opToks])
  have h5 : splitAtTok [ '>'] (stripSpace s.toList) = none :=
    h ([ '>'], Op.gt) (by simp [opToks])
  have h6 : splitAtTok [ '<'] (stripSpace s.toList) = none :=
    h ([ '<'], Op.lt) (by simp [opToks])
  have key : findOpSplit opToks (stripSpace s.toList) = none := by
    simp only [opToks, findOpSplit, h1, h2, h3, h4, h5, h6]
  unfold parse_condition
  rw [key]

theorem c6_witness :
    parse_condition "hello" = Except.error () :=
  c6_operator_token_order.2.2.2 "hello" (by decide)

/-! ### Evaluator semantics (C5) -/

theorem evalGroup_ok_true_iff (p : Payload) (g : List Cond) :
    evalGroup p g = Except.ok true ↔ ∀ c ∈ g, evaluate_condition c p = Except.ok true := by
  induction g with
  | nil => simp [evalGroup]
  | cons c cs ih =>
      cases hc : evaluate_condition c p with
      | error e => simp [evalGroup, hc]
      | ok b =>
          cases b with
          | false => simp [evalGroup, hc]
          | true => simp [evalGroup, hc, ih]

theorem evalGroup_isOk (p : Payload) (g : List Cond)
    (h : ∀ c ∈ g, (evaluate_condition c p).isOk) : (evalGroup p g).isOk = true := by
  induction g with
  | nil => simp [evalGroup, Except.isOk, Except.toBool]
  | cons c cs ih =>
      have hc := h c (by simp)
      cases hcv : evaluate_condition c p with
      | error e =>
          rw [hcv] at hc
          simp [Except.isOk, Except.toBool] at hc
      | ok b =>
          cases b with
          | false => simp [evalGroup, hcv, Except.isOk, Except.toBool]
          | true =>
              simp only [evalGroup, hcv]
              exact ih (fun c' hc' => h c' (by simp [hc']))

/-- C5: with every condition of the expression evaluating without error
on the payload, the evaluator returns true iff at least one group has
all of its conditions true (OR of groups, AND within a group); and any
single condition whose field key is absent from the payload evaluates to
false, regardless of operator and operand. -/
theorem c5_expression_semantics :
    (∀ (expr : List (List Cond)) (p : Payload),
        (∀ g ∈ expr, ∀ c ∈ g, (evaluate_condition c p).isOk) →
        (evaluate_rule p expr = Except.ok true ↔
          ∃ g ∈ expr, ∀ c ∈ g, evaluate_condition c p = Except.ok true))
    ∧ (∀ (key : String) (op : Op) (v : PVal) (p : Payload),
        List.lookup key p = none → evaluate_condition ⟨key, op, v⟩ p = Except.ok false) := by
  constructor
  · intro expr p
    induction expr with
    | nil =>
        intro _
        simp [evaluate_rule]
    | cons g gs ih =>
        intro hok
        have hg : (evalGroup p g).isOk = true := evalGroup_isOk p g (hok g (by simp))
        have ihs := ih (fun g' hg' c hc => hok g' (by simp [hg']) c hc)
        cases hgv : evalGroup p g with
        | error e =>
            rw [hgv] at hg
            simp [Except.isOk, Except.toBool] at hg
        | ok b =>
            cases b with
            | true =>
                have hrun : evaluate_rule p (g :: gs) = Except.ok true := by
                  simp [evaluate_rule, hgv]
                rw [hrun]
                exact iff_of_true rfl ⟨g, by simp, (evalGroup_ok_true_iff p g).mp hgv⟩
            | false =>
                simp only [evaluate_rule, hgv]
                rw [ihs]
                constructor
                · rintro ⟨g', hmem, hall⟩
                  exact ⟨g', by simp [hmem], hall⟩
                · rintro ⟨g', hmem, hall⟩
                  rcases List.mem_cons.mp hmem with rfl | hmem'
                  · exact absurd ((evalGroup_ok_true_iff p g').mpr hall) (by simp [hgv])
                  · exact ⟨g', hmem', hall⟩
  · intro key op v p h
    simp [evaluate_condition, h]

theorem c5_witness :
    (evaluate_rule [("A", PVal.PInt 1)] [[⟨"A", Op.eq, PVal.PInt 1⟩]] = Except.ok true ↔
      ∃ g ∈ [[(⟨"A", Op.eq, PVal.PInt 1⟩ : Cond)]],
        ∀ c ∈ g, evaluate_condition c [("A", PVal.PInt 1)] = Except.ok true)
    ∧ evaluate_condition ⟨"B", Op.eq, PVal.PInt 1⟩ [] = Except.ok false :=
  ⟨c5_expression_semantics.1 [[⟨"A", Op.eq, PVal.PInt 1⟩]] [("A", PVal.PInt 1)] (by decide),
   c5_expression_semantics.2 "B" Op.eq (PVal.PInt 1) [] (by decide)⟩

/-! ### Bounded history (C7) -/

theorem appendBounded_lt (h : List Entry) (e : Entry) (hl : h.length < 1000) :
    appendBounded h e = h ++ [e] := by
  simp only [appendBounded]
  rw [if_neg]
  simp only [List.length_append, List.length_cons, List.length_nil, not_lt]
  omega

theorem appendBounded_eq (h : List Entry) (e : Entry) (hl : h.length = 1000) :
    appendBounded h e = h.drop 1 ++ [e] := by
  simp only [appendBounded]
  rw [if_pos (by simp [hl])]
  rw [List.drop_append_eq_append_drop]
  simp [hl]

theorem appendBounded_getLast (h : List Entry) (e : Entry) :
    (appendBounded h e).getLast? = some e := by
  simp only [appendBounded]
  split
  · cases h with
    | nil => simp_all
    | cons x xs =>
        rw [List.cons_append, List.drop_succ_cons, List.drop_zero]
        exact List.getLast?_concat _
  · exact List.getLast?_concat _

theorem appendBounded_length (h : List Entry) (e : Entry) (hl : h.length ≤ 1000) :
    (appendBounded h e).length = min (h.length + 1) 1000 := by
  simp only [appendBounded]
  split <;> rename_i hc <;>
    simp only [List.length_append, List.length_cons, List.length_nil, List.length_drop] at hc ⊢ <;>
    omega

theorem foldl_appendBounded (es : List Entry) (h : List Entry)
    (hl : h.length + es.length ≤ 1000) :
    es.foldl appendBounded h = h ++ es := by
  induction es generalizing h with
  | nil => simp
  | cons e rest ih =>
      simp only [List.foldl_cons]
      rw [appendBounded_lt h e (by simp at hl; omega)]
      rw [ih (h ++ [e]) (by simp at hl ⊢; omega)]
      simp

/-- C7: the history is bounded at capacity 1000 with FIFO eviction:
one classification append keeps the history at ≤ 1000 entries, and 1001
appends starting from the empty history leave exactly 1000 entries,
with precisely the first-ever entry evicted and all others retained in
append order. -/
theorem c7_bounded_history :
    (∀ (h : List Entry) (e : Entry), h.length ≤ 1000 → (appendBounded h e).length ≤ 1000)
    ∧ (∀ es : List Entry, es.length = 1001 →
        es.foldl appendBounded [] = es.drop 1
        ∧ (es.foldl appendBounded []).length = 1000) := by
  constructor
  · intro h e hl
    simp only [appendBounded]
    split <;> rename_i hc <;>
      simp only [List.length_append, List.length_cons, List.length_nil, List.length_drop] at hc ⊢ <;>
      omega
  · intro es hlen
    have hsplit : es.take 1000 ++ es.drop 1000 = es := List.take_append_drop 1000 es
    obtain ⟨e, he⟩ : ∃ e, es.drop 1000 = [e] := by
      apply List.length_eq_one.mp
      simp [hlen]
    have htake : (es.take 1000).length = 1000 := by
      simp [hlen]
    have hfold : es.foldl appendBounded [] = (es.take 1000).drop 1 ++ [e] := by
      conv_lhs => rw [← hsplit]
      rw [List.foldl_append]
      rw [foldl_appendBounded (es.take 1000) [] (by simp [htake])]
      rw [he]
      simp only [List.foldl_cons, List.foldl_nil, List.nil_append]
      exact appendBounded_eq (es.take 1000) e htake
    have hdrop : es.drop 1 = (es.take 1000).drop 1 ++ [e] := by
      conv_lhs => rw [← hsplit]
      rw [List.drop_append_eq_append_drop, htake, he]
      norm_num
    refine ⟨hfold.trans hdrop.symm, ?_⟩
    rw [hfold.trans hdrop.symm]
    simp [hlen]

theorem c7_witness :
    (appendBounded [] ⟨[], [], [], 0⟩).length ≤ 1000
    ∧ (List.replicate 1001 (⟨[], [], [], 0⟩ : Entry)).foldl appendBounded [] =
        (List.replicate 1001 (⟨[], [], [], 0⟩ : Entry)).drop 1
    ∧ ((List.replicate 1001 (⟨[], [], [], 0⟩ : Entry)).foldl appendBounded []).length = 1000 :=
  ⟨c7_bounded_history.1 [] ⟨[], [], [], 0⟩ (by decide),
   (c7_bounded_history.2 (List.replicate 1001 ⟨[], [], [], 0⟩) (by rw [List.length_replicate])).1,
   (c7_bounded_history.2 (List.replicate 1001 ⟨[], [], [], 0⟩) (by rw [List.length_replicate])).2⟩

/-! ### Store validation (C8) -/

/-- C8: rule create and update re-parse any supplied condition text and
reject the mutation with no change to the store when parsing fails; and
both operations preserve the invariant that every stored rule's
condition text is accepted by the parser. -/
theorem c8_store_validation :
    (∀ (store : List Rule) (rid cond lab : String) (en : Bool) (pr now : Int),
        parse_rule cond = Except.error () →
        create_rule store rid cond lab en pr now = (store, false))
    ∧ (∀ (store : List Rule) (rid : String) (d : RuleData) (c : String),
        d.condition = some c → parse_rule c = Except.error () →
        update_rule store rid d = (store, false))
    ∧ (∀ (store : List Rule) (rid cond lab : String) (en : Bool) (pr now : Int),
        (∀ r ∈ store, (parse_rule r.condition).isOk = true) →
        ∀ r ∈ (create_rule store rid cond lab en pr now).1,
          (parse_rule r.condition).isOk = true)
    ∧ (∀ (store : List Rule) (rid : String) (d : RuleData),
        (∀ r ∈ store, (parse_rule r.condition).isOk = true) →
        ∀ r ∈ (update_rule store rid d).1, (parse_rule r.condition).isOk = true) := by
  refine ⟨?_, ?_, ?_, ?_⟩
  · intro store rid cond lab en pr now h
    simp [create_rule, h]
  · intro store rid d c hc hp
    simp [update_rule, hc, hp]
  · intro store rid cond lab en pr now hinv r hr
    unfold create_rule at hr
    cases hp : parse_rule cond with
    | error e => exact hinv r (by rw [hp] at hr; exact hr)
    | ok v =>
        rw [hp] at hr
        rcases List.mem_append.mp hr with h | h
        · exact hinv r h
        · have : r = ⟨rid, cond, lab, en, pr, now, 0, none⟩ := by simpa using h
          rw [this, hp]
          rfl
  · intro store rid d hinv r hr
    by_cases hall : store.all (fun r => r.id != rid) = true
    · rw [update_rule, if_pos hall] at hr
      exact hinv r hr
    · cases hd : d.condition with
      | none =>
          rw [update_rule, if_neg hall, hd] at hr
          rcases List.mem_map.mp hr with ⟨x, hx, rfl⟩
          by_cases hxid : x.id = rid
          · rw [if_pos hxid]
            have : (applyUpdate x d).condition = x.condition := by
              simp [applyUpdate, hd]
            rw [this]
            exact hinv x hx
          · rw [if_neg hxid]
            exact hinv x hx
      | some c =>
          cases hp : parse_rule c with
          | error e =>
              simp only [update_rule, if_neg hall, hd, hp] at hr
              exact hinv r hr
          | ok v =>
              simp only [update_rule, if_neg hall, hd, hp] at hr
              rcases List.mem_map.mp hr with ⟨x, hx, rfl⟩
              by_cases hxid : x.id = rid
              · rw [if_pos hxid]
                have : (applyUpdate x d).condition = c := by
                  simp [applyUpdate, hd]
                rw [this, hp]
                rfl
              · rw [if_neg hxid]
                exact hinv x hx

theorem c8_witness :
    create_rule [] "r1" "nocondition" "L" true 1 0 = ([], false)
    ∧ update_rule [⟨"r1", "MOQ < 100", "HighPriority", true, 2, 0, 0, none⟩] "r1"
        ⟨some "badcondition", none, none, none⟩ =
        ([⟨"r1", "MOQ < 100", "HighPriority", true, 2, 0, 0, none⟩], false)
    ∧ (∀ r ∈ (create_rule [] "r1" "MOQ < 100" "HighPriority" true 2 0).1,
        (parse_rule r.condition).isOk = true)
    ∧ (∀ r ∈ (update_rule [⟨"r1", "MOQ < 100", "HighPriority", true, 2, 0, 0, none⟩] "r1"
        ⟨none, some "Hot", none, none⟩).1, (parse_rule r.condition).isOk = true) :=
  ⟨c8_store_validation.1 [] "r1" "nocondition" "L" true 1 0 (by decide),
   c8_store_validation.2.1 [⟨"r1", "MOQ < 100", "HighPriority", true, 2, 0, 0, none⟩] "r1"
     ⟨some "badcondition", none, none, none⟩ "badcondition" rfl (by decide),
   c8_store_validation.2.2.1 [] "r1" "MOQ < 100" "HighPriority" true 2 0 (by simp),
   c8_store_validation.2.2.2 [⟨"r1", "MOQ < 100", "HighPriority", true, 2, 0, 0, none⟩] "r1"
     ⟨none, some "Hot", none, none⟩ (by decide)⟩

/-! ### Classification pipeline (C9, C10) -/

theorem applyRules_append (now : Int) (p : Payload) (a b : List Rule) :
    applyRules now p (a ++ b) =
      ((applyRules now p a).1 ++ (applyRules now p b).1,
       (applyRules now p a).2.1 ++ (applyRules now p b).2.1,
       (applyRules now p a).2.2 ++ (applyRules now p b).2.2) := by
  induction a with
  | nil => simp [applyRules]
  | cons r rest ih =>
      cases hv : evalRuleText r.condition p with
      | error e => simp [applyRules, hv, ih]
      | ok bv =>
          cases bv with
          | false => simp [applyRules, hv, ih]
          | true => simp [applyRules, hv, ih]

/-- C9: a rule whose parse or evaluation raises is skipped — it
contributes no label, no matched id, and is left unchanged in the rules
list — while all remaining rules are still evaluated; and every
classification call appends exactly one entry (carrying the call's
labels and matched ids) to the bounded history. -/
theorem c9_bad_rule_skipped :
    (∀ (now : Int) (p : Payload) (r : Rule) (pre post : List Rule),
        evalRuleText r.condition p = Except.error () →
        (applyRules now p (pre ++ r :: post)).1 = (applyRules now p (pre ++ post)).1
        ∧ (applyRules now p (pre ++ r :: post)).2.1 = (applyRules now p (pre ++ post)).2.1
        ∧ (applyRules now p (pre ++ r :: post)).2.2 =
            (applyRules now p pre).2.2 ++ r :: (applyRules now p post).2.2)
    ∧ (∀ (now : Int) (p : Payload) (store : List Rule) (history : List Entry),
        history.length ≤ 1000 →
        (process_payload now p store history).history.getLast? =
            some ⟨p, (process_payload now p store history).labels,
                  (process_payload now p store history).matched, now⟩
        ∧ (process_payload now p store history).history.length =
            min (history.length + 1) 1000) := by
  constructor
  · intro now p r pre post herr
    have hmid : applyRules now p (r :: post) =
        ((applyRules now p post).1, (applyRules now p post).2.1,
         r :: (applyRules now p post).2.2) := by
      simp [applyRules, herr]
    refine ⟨?_, ?_, ?_⟩
    · rw [applyRules_append now p pre (r :: post), applyRules_append now p pre post, hmid]
    · rw [applyRules_append now p pre (r :: post), applyRules_append now p pre post, hmid]
    · rw [applyRules_append now p pre (r :: post), hmid]
  · intro now p store history hlen
    constructor
    · exact appendBounded_getLast history _
    · exact appendBounded_length history _ hlen

theorem c9_witness :
    (applyRules 0 [("Price", PVal.PStr "free")]
        ([] ++ (⟨"bad", "Price > 5", "L", true, 1, 0, 0, none⟩ : Rule) :: [])).1 =
      (applyRules 0 [("Price", PVal.PStr "free")] ([] ++ [])).1
    ∧ (applyRules 0 [("Price", PVal.PStr "free")]
        ([] ++ (⟨"bad", "Price > 5", "L", true, 1, 0, 0, none⟩ : Rule) :: [])).2.1 =
      (applyRules 0 [("Price", PVal.PStr "free")] ([] ++ [])).2.1
    ∧ (applyRules 0 [("Price", PVal.PStr "free")]
        ([] ++ (⟨"bad", "Price > 5", "L", true, 1, 0, 0, none⟩ : Rule) :: [])).2.2 =
      (applyRules 0 [("Price", PVal.PStr "free")] []).2.2 ++
        (⟨"bad", "Price > 5", "L", true, 1, 0, 0, none⟩ : Rule) ::
          (applyRules 0 [("Price", PVal.PStr "free")] []).2.2
    ∧ (process_payload 0 [("Price", PVal.PStr "free")] [] []).history.getLast? =
        some ⟨[("Price", PVal.PStr "free")],
              (process_payload 0 [("Price", PVal.PStr "free")] [] []).labels,
              (process_payload 0 [("Price", PVal.PStr "free")] [] []).matched, 0⟩
    ∧ (process_payload 0 [("Price", PVal.PStr "free")] [] []).history.length =
        min (List.length ([] : List Entry) + 1) 1000 :=
  ⟨(c9_bad_rule_skipped.1 0 [("Price", PVal.PStr "free")]
      ⟨"bad", "Price > 5", "L", true, 1, 0, 0, none⟩ [] [] (by decide)).1,
   (c9_bad_rule_skipped.1 0 [("Price", PVal.PStr "free")]
      ⟨"bad", "Price > 5", "L", true, 1, 0, 0, none⟩ [] [] (by decide)).2.1,
   (c9_bad_rule_skipped.1 0 [("Price", PVal.PStr "free")]
      ⟨"bad", "Price > 5", "L", true, 1, 0, 0, none⟩ [] [] (by decide)).2.2,
   (c9_bad_rule_skipped.2 0 [("Price", PVal.PStr "free")] [] [] (by decide)).1,
   (c9_bad_rule_skipped.2 0 [("Price", PVal.PStr "free")] [] [] (by decide)).2⟩

/-- C10: per classification call and per stored rule, a matching enabled
rule gets exactly `usage_count + 1` and `last_used = now` with every
other field unchanged, while enabled rules that do not match (including
those whose evaluation raises) and all disabled rules are left entirely
unchanged, each at its original position in the store. -/
theorem c10_frame_effect (now : Int) (p : Payload) (store : List Rule)
    (history : List Entry) (i : Nat) (r : Rule) (hget : store[i]? = some r) :
    (r.enabled = true → evalRuleText r.condition p = Except.ok true →
        ((process_payload now p store history).store)[i]? =
          some { r with usage_count := r.usage_count + 1, last_used := some now })
    ∧ (r.enabled = true → evalRuleText r.condition p ≠ Except.ok true →
        ((process_payload now p store history).store)[i]? = some r)
    ∧ (r.enabled = false → ((process_payload now p store history).store)[i]? = some r) := by
  have hmap : ((process_payload now p store history).store)[i]? =
      some (if r.enabled then ruleStep now p r else r) := by
    simp only [process_payload, List.getElem?_map, hget, Option.map_some']
  refine ⟨?_, ?_, ?_⟩
  · intro he hv
    rw [hmap, if_pos he]
    simp [ruleStep, hv, bump]
  · intro he hv
    rw [hmap, if_pos he]
    cases hv2 : evalRuleText r.condition p with
    | error e => simp [ruleStep, hv2]
    | ok b =>
        cases b with
        | true => exact absurd hv2 hv
        | false => simp [ruleStep, hv2]
  · intro he
    rw [hmap, if_neg (by simp [he])]

theorem c10_witness :
    ((process_payload 7 [("MOQ", PVal.PInt 50)]
        [⟨"r1", "MOQ < 100", "HighPriority", true, 2, 0, 0, none⟩] []).store)[0]? =
      some ⟨"r1", "MOQ < 100", "HighPriority", true, 2, 0, 1, some 7⟩ :=
  (c10_frame_effect 7 [("MOQ", PVal.PInt 50)]
      [⟨"r1", "MOQ < 100", "HighPriority", true, 2, 0, 0, none⟩] [] 0
      ⟨"r1", "MOQ < 100", "HighPriority", true, 2, 0, 0, none⟩ (by decide)).1 rfl (by decide)

end ADL
